import Mathlib

/-!
Verification of the apple-game grid engine (`board.py`) and the asynchronous
move coordinator (`game.py`).

The grid is embedded as a total function `Nat → Nat → ℤ` (only indices below
the declared dimensions are ever consulted).  The two cached tables
`_ps_sum` / `_ps_ones` of `board.py` are embedded as functions
`Nat → Nat → ℤ` holding the value the Python array holds at each index after
`_rebuild_prefix`; the recurrence of the rebuild loop is `psTable` below.
Python integers are `ℤ`; move counters, which are only ever incremented,
are `Nat`.  A method that both returns a value and mutates the object is a
function returning the value paired with the successor state, and a method
that can raise returns `Except String`.
-/

namespace AppleBot

/-- The running row accumulator of `_rebuild_prefix`:
`runSum row c` is the value of `run_sum` after the inner loop has processed
columns `0 .. c-1` of `row`. -/
def runSum (row : Nat → ℤ) : Nat → ℤ
  | 0 => 0
  | c + 1 => runSum row c + row c

/-- The table built by `Board._rebuild_prefix`:
`ps[r][c] = ps[r-1][c] + run_sum` with `run_sum` the row accumulator.
`psTable g r c` is the entry `ps[r][c]` after the rebuild of grid `g`. -/
def psTable (g : Nat → Nat → ℤ) : Nat → Nat → ℤ
  | 0, _ => 0
  | r + 1, c => psTable g r c + runSum (g r) c

/-- The indicator grid fed to the `ones` table:
`run_sum_ones += (1 if v != 0 else 0)` in `_rebuild_prefix`. -/
def ones (g : Nat → Nat → ℤ) : Nat → Nat → ℤ :=
  fun r c => if g r c ≠ 0 then 1 else 0

/-- `Board._pref_sum`: inclusion–exclusion on a cached table,
`pref[r2+1][c2+1] - pref[r1][c2+1] - pref[r2+1][c1] + pref[r1][c1]`
with 0-based inclusive corners. -/
def prefSum (t : Nat → Nat → ℤ) (r1 c1 r2 c2 : Nat) : ℤ :=
  t (r2 + 1) (c2 + 1) - t r1 (c2 + 1) - t (r2 + 1) c1 + t r1 c1

/-- Spec-side brute force: the cell-by-cell sum of `g` over the 0-based
inclusive rectangle `[r1,r2] × [c1,c2]`.  This is also the loop computed by
`_sum_rect_grid` in `game.py`. -/
def bruteRectSum (g : Nat → Nat → ℤ) (r1 c1 r2 c2 : Nat) : ℤ :=
  ∑ r ∈ Finset.Icc r1 r2, ∑ c ∈ Finset.Icc c1 c2, g r c

/-- Spec-side brute force: the number of nonzero cells of `g` in the 0-based
inclusive rectangle `[r1,r2] × [c1,c2]`, as an integer.  This is also the
loop computed by `_count_nonzero_rect_grid` in `game.py`. -/
def bruteNonzero (g : Nat → Nat → ℤ) (r1 c1 r2 c2 : Nat) : ℤ :=
  ∑ r ∈ Finset.Icc r1 r2, ∑ c ∈ Finset.Icc c1 c2, ones g r c

lemma runSum_eq (row : Nat → ℤ) (c : Nat) :
    runSum row c = ∑ j ∈ Finset.range c, row j := by
  induction c with
  | zero => simp [runSum]
  | succ n ih => rw [Finset.sum_range_succ, runSum, ih]

lemma psTable_eq (g : Nat → Nat → ℤ) (r c : Nat) :
    psTable g r c = ∑ i ∈ Finset.range r, ∑ j ∈ Finset.range c, g i j := by
  induction r with
  | zero => simp [psTable]
  | succ n ih => rw [Finset.sum_range_succ, psTable, ih, runSum_eq]

/-- Correctness of inclusion–exclusion over the rebuilt table: querying
`psTable g` through `_pref_sum` returns the brute-force rectangle sum. -/
lemma prefSum_psTable (g : Nat → Nat → ℤ) {r1 c1 r2 c2 : Nat}
    (h1 : r1 ≤ r2 + 1) (h2 : c1 ≤ c2 + 1) :
    prefSum (psTable g) r1 c1 r2 c2 = bruteRectSum g r1 c1 r2 c2 := by
  have e1 : ∀ i, ∑ j ∈ Finset.Icc c1 c2, g i j
      = ∑ j ∈ Finset.range (c2 + 1), g i j - ∑ j ∈ Finset.range c1, g i j := by
    intro i
    rw [← Nat.Ico_succ_right, Finset.sum_Ico_eq_sub _ h2]
  unfold bruteRectSum
  rw [← Nat.Ico_succ_right, Finset.sum_Ico_eq_sub _ h1]
  simp only [prefSum, psTable_eq, e1, Finset.sum_sub_distrib]
  ring

/-- A rectangle request `(r1, c1, r2, c2)`, 1-based inclusive.  Components are
Python integers, so `ℤ`. -/
structure Rect where
  r1 : ℤ
  c1 : ℤ
  r2 : ℤ
  c2 : ℤ
  deriving DecidableEq

/-- The state of `Board`.  `grid` is the cell matrix; `ps_sum` / `ps_ones`
are the cached tables (`_ps_sum` / `_ps_ones`), `dirty` the `_dirty` flag. -/
structure Board where
  H : Nat
  W : Nat
  grid : Nat → Nat → ℤ
  score : ℤ
  total_moves : Nat
  failed_moves : Nat
  successful_moves : Nat
  dirty : Bool
  ps_sum : Nat → Nat → ℤ
  ps_ones : Nat → Nat → ℤ

/-- `Board.__init__` with the random grid abstracted into the parameter `g`
(the constructor guarantee `randint(1, 9)` on every cell is the separate
predicate `InitGrid`).  Tables start zeroed and `_dirty = True`. -/
def Board.init (H W : Nat) (g : Nat → Nat → ℤ) : Board :=
  { H := H, W := W, grid := g, score := 0, total_moves := 0,
    failed_moves := 0, successful_moves := 0, dirty := true,
    ps_sum := fun _ _ => 0, ps_ones := fun _ _ => 0 }

/-- What `Board.__init__` guarantees about the freshly generated grid:
every in-bounds cell is `randint(1, 9)`. -/
def InitGrid (H W : Nat) (g : Nat → Nat → ℤ) : Prop :=
  ∀ r < H, ∀ c < W, 1 ≤ g r c ∧ g r c ≤ 9

/-- The bounds test of `rect_sum` / `rect_nonzero_count`:
after `r1 -= 1` … `c2 -= 1`, require `0 <= r1 <= r2 < H and 0 <= c1 <= c2 < W`. -/
def rectOk (H W : Nat) (rc : Rect) : Bool :=
  decide (0 ≤ rc.r1 - 1 ∧ rc.r1 - 1 ≤ rc.r2 - 1 ∧ rc.r2 - 1 < (H : ℤ) ∧
          0 ≤ rc.c1 - 1 ∧ rc.c1 - 1 ≤ rc.c2 - 1 ∧ rc.c2 - 1 < (W : ℤ))

/-- `Board._ensure_prefix`: rebuild both tables and clear the dirty flag when
`_dirty` is set, otherwise leave the state untouched. -/
def ensurePS (b : Board) : Board :=
  if b.dirty then
    { b with ps_sum := psTable b.grid, ps_ones := psTable (ones b.grid),
             dirty := false }
  else b

/-- `Board.rect_sum`: bounds-check (raising `ValueError` on failure), ensure
the tables, then answer by inclusion–exclusion on `_ps_sum`. -/
def Board.rect_sum (b : Board) (rc : Rect) : Except String (ℤ × Board) :=
  if rectOk b.H b.W rc then
    let b' := ensurePS b
    .ok (prefSum b'.ps_sum (rc.r1 - 1).toNat (rc.c1 - 1).toNat
          (rc.r2 - 1).toNat (rc.c2 - 1).toNat, b')
  else .error "Invalid rectangle coordinates"

/-- `Board.rect_nonzero_count`: same contract on `_ps_ones`. -/
def Board.rect_nonzero_count (b : Board) (rc : Rect) : Except String (ℤ × Board) :=
  if rectOk b.H b.W rc then
    let b' := ensurePS b
    .ok (prefSum b'.ps_ones (rc.r1 - 1).toNat (rc.c1 - 1).toNat
          (rc.r2 - 1).toNat (rc.c2 - 1).toNat, b')
  else .error "Invalid rectangle coordinates"

/-- The double loop of `apply_move` that zeroes every cell of the 0-based
inclusive rectangle. -/
def zeroRect (g : Nat → Nat → ℤ) (r1 c1 r2 c2 : Nat) : Nat → Nat → ℤ :=
  fun r c => if r1 ≤ r ∧ r ≤ r2 ∧ c1 ≤ c ∧ c ≤ c2 then 0 else g r c

/-- `Board.apply_move`: `total_moves += 1`; `is_valid_rect` (that is,
`rect_sum == 10`, which may raise); on failure count a failed move and stop;
on success add `rect_nonzero_count` to the score, count a successful move,
zero the rectangle and set `_dirty`. -/
def Board.apply_move (rc : Rect) (b0 : Board) : Except String Unit × Board :=
  let b1 := { b0 with total_moves := b0.total_moves + 1 }
  match Board.rect_sum b1 rc with
  | .error e => (.error e, b1)
  | .ok (s, b2) =>
    if s ≠ 10 then (.ok (), { b2 with failed_moves := b2.failed_moves + 1 })
    else
      match Board.rect_nonzero_count b2 rc with
      | .error e => (.error e, b2)
      | .ok (apples, b3) =>
        (.ok (), { b3 with
          score := b3.score + apples,
          successful_moves := b3.successful_moves + 1,
          grid := zeroRect b3.grid (rc.r1 - 1).toNat (rc.c1 - 1).toNat
                    (rc.r2 - 1).toNat (rc.c2 - 1).toNat,
          dirty := true })

/-- The rectangle enumeration order shared by `find_valid_moves`,
`has_any_move` and `first_valid_move`:
`for r1 in range(H): for r2 in range(r1, H): for c1 in range(W):
for c2 in range(c1, W)`, yielding 0-based tuples `(r1, r2, c1, c2)`. -/
def allRects (H W : Nat) : List (Nat × Nat × Nat × Nat) :=
  (List.range H).flatMap fun r1 =>
    (List.range' r1 (H - r1)).flatMap fun r2 =>
      (List.range W).flatMap fun c1 =>
        (List.range' c1 (W - c1)).map fun c2 => (r1, r2, c1, c2)

/-- `Board.find_valid_moves`: ensure the tables, then collect, in iteration
order, every rectangle whose table sum is 10 as the 1-based tuple
`(r1+1, c1+1, r2+1, c2+1)` paired with its table nonzero count. -/
def Board.find_valid_moves (b0 : Board) :
    List ((Nat × Nat × Nat × Nat) × ℤ) × Board :=
  let b := ensurePS b0
  ((allRects b.H b.W).filterMap fun q =>
      if prefSum b.ps_sum q.1 q.2.2.1 q.2.1 q.2.2.2 = 10 then
        some ((q.1 + 1, q.2.2.1 + 1, q.2.1 + 1, q.2.2.2 + 1),
              prefSum b.ps_ones q.1 q.2.2.1 q.2.1 q.2.2.2)
      else none, b)

/-- `Board.has_any_move`: ensure the tables, then scan the same enumeration
with early exit for a rectangle whose table sum is 10. -/
def Board.has_any_move (b0 : Board) : Bool × Board :=
  let b := ensurePS b0
  ((allRects b.H b.W).any fun q =>
      prefSum b.ps_sum q.1 q.2.2.1 q.2.1 q.2.2.2 == 10, b)

/-- `Board.first_valid_move`: ensure the tables, then return the first
rectangle of the same enumeration whose table sum is 10, 1-based, or `none`. -/
def Board.first_valid_move (b0 : Board) :
    Option (Nat × Nat × Nat × Nat) × Board :=
  let b := ensurePS b0
  (((allRects b.H b.W).find? fun q =>
      prefSum b.ps_sum q.1 q.2.2.1 q.2.1 q.2.2.2 == 10).map
    (fun q => (q.1 + 1, q.2.2.1 + 1, q.2.1 + 1, q.2.2.2 + 1)), b)

/-- States reachable from a fresh `Board` by the public operations.  Every
query mutates the state only through `_ensure_prefix`, so one constructor
covers all read paths; `apply_move` is closed over arbitrary rectangles,
including ones on which it raises (the counter increment before the raise is
still observable). -/
inductive Reachable (H W : Nat) : Board → Prop
  | init (g : Nat → Nat → ℤ) (hg : InitGrid H W g) :
      Reachable H W (Board.init H W g)
  | move (b : Board) (rc : Rect) (hb : Reachable H W b) :
      Reachable H W (Board.apply_move rc b).2
  | query (b : Board) (hb : Reachable H W b) : Reachable H W (ensurePS b)

/-- The cache discipline of `board.py`: whenever the dirty flag is down, both
cached tables agree with a fresh rebuild from the current grid. -/
def CacheOK (b : Board) : Prop :=
  b.dirty = false → b.ps_sum = psTable b.grid ∧ b.ps_ones = psTable (ones b.grid)

lemma ensurePS_grid (b : Board) : (ensurePS b).grid = b.grid := by
  unfold ensurePS; split <;> rfl

lemma ensurePS_H (b : Board) : (ensurePS b).H = b.H := by
  unfold ensurePS; split <;> rfl

lemma ensurePS_W (b : Board) : (ensurePS b).W = b.W := by
  unfold ensurePS; split <;> rfl

lemma ensurePS_score (b : Board) : (ensurePS b).score = b.score := by
  unfold ensurePS; split <;> rfl

lemma ensurePS_total (b : Board) : (ensurePS b).total_moves = b.total_moves := by
  unfold ensurePS; split <;> rfl

lemma ensurePS_failed (b : Board) : (ensurePS b).failed_moves = b.failed_moves := by
  unfold ensurePS; split <;> rfl

lemma ensurePS_succ (b : Board) :
    (ensurePS b).successful_moves = b.successful_moves := by
  unfold ensurePS; split <;> rfl

lemma ensurePS_eq_of_cacheOK (b : Board) (hc : CacheOK b) :
    ensurePS b = { b with ps_sum := psTable b.grid,
                          ps_ones := psTable (ones b.grid), dirty := false } := by
  unfold ensurePS
  cases hd : b.dirty with
  | false =>
    obtain ⟨h1, h2⟩ := hc hd
    simp [← h1, ← h2, ← hd]
  | true => simp

lemma cacheOK_ensurePS (b : Board) (hc : CacheOK b) : CacheOK (ensurePS b) := by
  rw [ensurePS_eq_of_cacheOK b hc]
  intro _
  exact ⟨rfl, rfl⟩

lemma ensurePS_idem (b : Board) : ensurePS (ensurePS b) = ensurePS b := by
  unfold ensurePS
  cases hd : b.dirty <;> simp [hd]

/-- Bounds facts extracted from a passing `rectOk` test, in `Nat` form. -/
lemma rectOk_bounds {H W : Nat} {rc : Rect} (h : rectOk H W rc = true) :
    (rc.r1 - 1).toNat ≤ (rc.r2 - 1).toNat ∧ (rc.r2 - 1).toNat < H ∧
    (rc.c1 - 1).toNat ≤ (rc.c2 - 1).toNat ∧ (rc.c2 - 1).toNat < W := by
  have h' := of_decide_eq_true h
  omega

/-- On a state obeying the cache discipline, `rect_sum` on an in-bounds
rectangle returns the brute-force sum of the current grid, with the tables
freshly ensured. -/
lemma rect_sum_eq (b : Board) (rc : Rect) (hc : CacheOK b)
    (h : rectOk b.H b.W rc = true) :
    Board.rect_sum b rc =
      .ok (bruteRectSum b.grid (rc.r1 - 1).toNat (rc.c1 - 1).toNat
            (rc.r2 - 1).toNat (rc.c2 - 1).toNat, ensurePS b) := by
  obtain ⟨h1, _, h2, _⟩ := rectOk_bounds h
  unfold Board.rect_sum
  rw [if_pos h, ensurePS_eq_of_cacheOK b hc]
  have := @prefSum_psTable b.grid (rc.r1 - 1).toNat (rc.c1 - 1).toNat
    (rc.r2 - 1).toNat (rc.c2 - 1).toNat (by omega) (by omega)
  simp only [this]

/-- Same statement for `rect_nonzero_count` and the brute-force nonzero
count. -/
lemma rect_nonzero_count_eq (b : Board) (rc : Rect) (hc : CacheOK b)
    (h : rectOk b.H b.W rc = true) :
    Board.rect_nonzero_count b rc =
      .ok (bruteNonzero b.grid (rc.r1 - 1).toNat (rc.c1 - 1).toNat
            (rc.r2 - 1).toNat (rc.c2 - 1).toNat, ensurePS b) := by
  obtain ⟨h1, _, h2, _⟩ := rectOk_bounds h
  unfold Board.rect_nonzero_count
  rw [if_pos h, ensurePS_eq_of_cacheOK b hc]
  have := @prefSum_psTable (ones b.grid) (rc.r1 - 1).toNat (rc.c1 - 1).toNat
    (rc.r2 - 1).toNat (rc.c2 - 1).toNat (by omega) (by omega)
  simp only [bruteNonzero, bruteRectSum] at this ⊢
  simp only [this]

lemma cacheOK_total (b : Board) (t : Nat) :
    CacheOK b → CacheOK { b with total_moves := t } := fun hc hd => hc hd

/-- `apply_move` on an out-of-bounds rectangle: `total_moves` is already
incremented when `rect_sum` raises, and nothing else changes. -/
lemma apply_move_invalid (b : Board) (rc : Rect)
    (h : rectOk b.H b.W rc = false) :
    Board.apply_move rc b =
      (.error "Invalid rectangle coordinates",
       { b with total_moves := b.total_moves + 1 }) := by
  unfold Board.apply_move Board.rect_sum
  simp [h]

/-- `apply_move` on an in-bounds rectangle whose sum is not 10: the failed
counter and total counter are incremented, and the only other effect is the
table rebuild performed by the query. -/
lemma apply_move_fail (b : Board) (rc : Rect) (hc : CacheOK b)
    (h : rectOk b.H b.W rc = true)
    (hS : bruteRectSum b.grid (rc.r1 - 1).toNat (rc.c1 - 1).toNat
            (rc.r2 - 1).toNat (rc.c2 - 1).toNat ≠ 10) :
    Board.apply_move rc b =
      (.ok (), { b with total_moves := b.total_moves + 1,
                        failed_moves := b.failed_moves + 1,
                        ps_sum := psTable b.grid,
                        ps_ones := psTable (ones b.grid),
                        dirty := false }) := by
  have hc1 : CacheOK { b with total_moves := b.total_moves + 1 } :=
    cacheOK_total b _ hc
  simp only [Board.apply_move]
  rw [rect_sum_eq _ rc hc1 h, ensurePS_eq_of_cacheOK _ hc1]
  simp only [if_pos hS]

/-- `apply_move` on an in-bounds rectangle whose sum is 10: the score grows
by the nonzero count, the successful and total counters are incremented, the
rectangle is zeroed and the dirty flag is raised over the (now stale)
rebuilt tables. -/
lemma apply_move_success (b : Board) (rc : Rect) (hc : CacheOK b)
    (h : rectOk b.H b.W rc = true)
    (hS : bruteRectSum b.grid (rc.r1 - 1).toNat (rc.c1 - 1).toNat
            (rc.r2 - 1).toNat (rc.c2 - 1).toNat = 10) :
    Board.apply_move rc b =
      (.ok (), { b with
        grid := zeroRect b.grid (rc.r1 - 1).toNat (rc.c1 - 1).toNat
                  (rc.r2 - 1).toNat (rc.c2 - 1).toNat,
        score := b.score + bruteNonzero b.grid (rc.r1 - 1).toNat
                  (rc.c1 - 1).toNat (rc.r2 - 1).toNat (rc.c2 - 1).toNat,
        total_moves := b.total_moves + 1,
        successful_moves := b.successful_moves + 1,
        ps_sum := psTable b.grid,
        ps_ones := psTable (ones b.grid),
        dirty := true }) := by
  have hc1 : CacheOK { b with total_moves := b.total_moves + 1 } :=
    cacheOK_total b _ hc
  simp only [Board.apply_move]
  rw [rect_sum_eq _ rc hc1 h, ensurePS_eq_of_cacheOK _ hc1]
  dsimp only
  rw [if_neg (not_not_intro hS)]
  have hc2 : CacheOK ({ b with
      total_moves := b.total_moves + 1,
      dirty := false, ps_sum := psTable b.grid,
      ps_ones := psTable (ones b.grid) } : Board) :=
    fun _ => ⟨rfl, rfl⟩
  rw [rect_nonzero_count_eq _ rc hc2 h, ensurePS_eq_of_cacheOK _ hc2]

/-- Master invariant of reachable boards: the cache discipline holds, the
dimensions are the construction dimensions, and every in-bounds cell lies in
`[0, 9]`. -/
lemma reachable_inv {H W : Nat} {b : Board} (hb : Reachable H W b) :
    CacheOK b ∧ b.H = H ∧ b.W = W ∧
    ∀ r, r < H → ∀ c, c < W → 0 ≤ b.grid r c ∧ b.grid r c ≤ 9 := by
  induction hb with
  | init g hg =>
    refine ⟨fun hd => by simp [Board.init] at hd, rfl, rfl, ?_⟩
    intro r hr c hcc
    have := hg r hr c hcc
    dsimp [Board.init]
    omega
  | move b rc hb ih =>
    obtain ⟨hc, hH, hW, hcells⟩ := ih
    by_cases hok : rectOk b.H b.W rc = true
    · by_cases hS : bruteRectSum b.grid (rc.r1 - 1).toNat (rc.c1 - 1).toNat
          (rc.r2 - 1).toNat (rc.c2 - 1).toNat = 10
      · rw [apply_move_success b rc hc hok hS]
        refine ⟨fun hd => by simp at hd, hH, hW, ?_⟩
        intro r hr c hcc
        dsimp [zeroRect]
        split
        · exact ⟨le_refl 0, by norm_num⟩
        · exact hcells r hr c hcc
      · rw [apply_move_fail b rc hc hok hS]
        exact ⟨fun _ => ⟨rfl, rfl⟩, hH, hW, hcells⟩
    · rw [apply_move_invalid b rc (by simpa using hok)]
      exact ⟨fun hd => hc hd, hH, hW, hcells⟩
  | query b hb ih =>
    obtain ⟨hc, hH, hW, hcells⟩ := ih
    refine ⟨cacheOK_ensurePS b hc, ?_, ?_, ?_⟩
    · rw [ensurePS_H]; exact hH
    · rw [ensurePS_W]; exact hW
    · intro r hr c hcc
      rw [ensurePS_grid]
      exact hcells r hr c hcc

/-- Claim C1: on every board reachable from a fresh construction, the cached
prefix tables never serve a stale answer: for every in-bounds rectangle,
`rect_sum` answers the brute-force cell-by-cell sum of the current grid and
`rect_nonzero_count` the brute-force nonzero count. -/
theorem rect_queries_never_stale {H W : Nat} (b : Board) (rc : Rect)
    (hb : Reachable H W b) (hok : rectOk b.H b.W rc = true) :
    Board.rect_sum b rc =
      .ok (bruteRectSum b.grid (rc.r1 - 1).toNat (rc.c1 - 1).toNat
            (rc.r2 - 1).toNat (rc.c2 - 1).toNat, ensurePS b) ∧
    Board.rect_nonzero_count b rc =
      .ok (bruteNonzero b.grid (rc.r1 - 1).toNat (rc.c1 - 1).toNat
            (rc.r2 - 1).toNat (rc.c2 - 1).toNat, ensurePS b) := by
  have hc := (reachable_inv hb).1
  exact ⟨rect_sum_eq b rc hc hok, rect_nonzero_count_eq b rc hc hok⟩

theorem rect_queries_never_stale_witness :
    Board.rect_sum (Board.init 1 1 fun _ _ => 5) ⟨1, 1, 1, 1⟩ =
      .ok (5, ensurePS (Board.init 1 1 fun _ _ => 5)) := by
  have h := (@rect_queries_never_stale 1 1
    (Board.init 1 1 fun _ _ => 5) ⟨1, 1, 1, 1⟩
    (Reachable.init _ fun r _ c _ => ⟨by norm_num, by norm_num⟩)
    (by decide)).1
  rw [h]
  norm_num [bruteRectSum, Board.init]

/-- Claim C2: on a reachable board and an in-bounds rectangle, `apply_move`
always increments `total_moves` by one; if the rectangle sum is not 10 it
only increments `failed_moves`; if the sum is 10 it zeroes exactly the cells
inside the rectangle, adds the pre-move nonzero count to the score and
increments `successful_moves`. -/
theorem apply_move_semantics {H W : Nat} (b : Board) (rc : Rect)
    (hb : Reachable H W b) (hok : rectOk b.H b.W rc = true) :
    (Board.apply_move rc b).2.total_moves = b.total_moves + 1 ∧
    (bruteRectSum b.grid (rc.r1 - 1).toNat (rc.c1 - 1).toNat
        (rc.r2 - 1).toNat (rc.c2 - 1).toNat ≠ 10 →
      (Board.apply_move rc b).2.grid = b.grid ∧
      (Board.apply_move rc b).2.score = b.score ∧
      (Board.apply_move rc b).2.successful_moves = b.successful_moves ∧
      (Board.apply_move rc b).2.failed_moves = b.failed_moves + 1) ∧
    (bruteRectSum b.grid (rc.r1 - 1).toNat (rc.c1 - 1).toNat
        (rc.r2 - 1).toNat (rc.c2 - 1).toNat = 10 →
      (∀ r c : Nat, (rc.r1 - 1).toNat ≤ r → r ≤ (rc.r2 - 1).toNat →
          (rc.c1 - 1).toNat ≤ c → c ≤ (rc.c2 - 1).toNat →
          (Board.apply_move rc b).2.grid r c = 0) ∧
      (∀ r c : Nat, ¬((rc.r1 - 1).toNat ≤ r ∧ r ≤ (rc.r2 - 1).toNat ∧
          (rc.c1 - 1).toNat ≤ c ∧ c ≤ (rc.c2 - 1).toNat) →
          (Board.apply_move rc b).2.grid r c = b.grid r c) ∧
      (Board.apply_move rc b).2.score =
        b.score + bruteNonzero b.grid (rc.r1 - 1).toNat (rc.c1 - 1).toNat
          (rc.r2 - 1).toNat (rc.c2 - 1).toNat ∧
      (Board.apply_move rc b).2.successful_moves = b.successful_moves + 1 ∧
      (Board.apply_move rc b).2.failed_moves = b.failed_moves) := by
  have hc := (reachable_inv hb).1
  by_cases hS : bruteRectSum b.grid (rc.r1 - 1).toNat (rc.c1 - 1).toNat
      (rc.r2 - 1).toNat (rc.c2 - 1).toNat = 10
  · rw [apply_move_success b rc hc hok hS]
    refine ⟨rfl, fun hne => absurd hS hne, fun _ => ⟨?_, ?_, rfl, rfl, rfl⟩⟩
    · intro r c h1 h2 h3 h4
      dsimp [zeroRect]
      rw [if_pos ⟨h1, h2, h3, h4⟩]
    · intro r c hout
      dsimp [zeroRect]
      rw [if_neg (by tauto)]
  · rw [apply_move_fail b rc hc hok hS]
    exact ⟨rfl, fun _ => ⟨rfl, rfl, rfl, rfl⟩, fun hS10 => absurd hS10 hS⟩

theorem apply_move_semantics_witness :
    (Board.apply_move ⟨1, 1, 1, 1⟩ (Board.init 1 1 fun _ _ => 5)).2.total_moves = 1 ∧
    (Board.apply_move ⟨1, 1, 1, 1⟩ (Board.init 1 1 fun _ _ => 5)).2.failed_moves = 1 ∧
    (Board.apply_move ⟨1, 1, 1, 1⟩ (Board.init 1 1 fun _ _ => 5)).2.score = 0 := by
  have h := @apply_move_semantics 1 1
    (Board.init 1 1 fun _ _ => 5) ⟨1, 1, 1, 1⟩
    (Reachable.init _ fun r _ c _ => ⟨by norm_num, by norm_num⟩)
    (by decide)
  have h5 : bruteRectSum (Board.init 1 1 fun _ _ => 5).grid
      ((1 : ℤ) - 1).toNat ((1 : ℤ) - 1).toNat ((1 : ℤ) - 1).toNat
      ((1 : ℤ) - 1).toNat ≠ 10 := by norm_num [bruteRectSum, Board.init]
  obtain ⟨ht, hfail, -⟩ := h
  obtain ⟨-, hscore, -, hfld⟩ := hfail h5
  exact ⟨ht, hfld, hscore⟩

/-- Reachability restricted to `apply_move` calls with in-bounds rectangles,
i.e. runs on which no call raises. -/
inductive ReachableIB (H W : Nat) : Board → Prop
  | init (g : Nat → Nat → ℤ) (hg : InitGrid H W g) :
      ReachableIB H W (Board.init H W g)
  | move (b : Board) (rc : Rect) (hok : rectOk b.H b.W rc = true)
      (hb : ReachableIB H W b) : ReachableIB H W (Board.apply_move rc b).2
  | query (b : Board) (hb : ReachableIB H W b) : ReachableIB H W (ensurePS b)

lemma reachableIB_reachable {H W : Nat} {b : Board} (hb : ReachableIB H W b) :
    Reachable H W b := by
  induction hb with
  | init g hg => exact Reachable.init g hg
  | move b rc hok hb ih => exact Reachable.move b rc ih
  | query b hb ih => exact Reachable.query b ih

/-- Claim C6, amended: on every board reachable by `apply_move` calls that
use in-bounds rectangles (no call raises), the total-move counter equals the
sum of the successful and failed counters.  (As stated over all public
operation sequences the claim fails: an out-of-bounds `apply_move` raises
after incrementing `total_moves` only, see the counterexample.) -/
theorem total_eq_successful_add_failed {H W : Nat} (b : Board)
    (hb : ReachableIB H W b) :
    b.total_moves = b.successful_moves + b.failed_moves := by
  induction hb with
  | init g hg => rfl
  | move b rc hok hb ih =>
    have hc := (reachable_inv (reachableIB_reachable hb)).1
    by_cases hS : bruteRectSum b.grid (rc.r1 - 1).toNat (rc.c1 - 1).toNat
        (rc.r2 - 1).toNat (rc.c2 - 1).toNat = 10
    · rw [apply_move_success b rc hc hok hS]
      dsimp only
      omega
    · rw [apply_move_fail b rc hc hok hS]
      dsimp only
      omega
  | query b hb ih =>
    rw [ensurePS_total, ensurePS_succ, ensurePS_failed]
    exact ih

theorem total_eq_successful_add_failed_witness :
    (Board.apply_move ⟨1, 1, 1, 1⟩ (Board.init 1 1 fun _ _ => 5)).2.total_moves =
      (Board.apply_move ⟨1, 1, 1, 1⟩ (Board.init 1 1 fun _ _ => 5)).2.successful_moves +
      (Board.apply_move ⟨1, 1, 1, 1⟩ (Board.init 1 1 fun _ _ => 5)).2.failed_moves :=
  @total_eq_successful_add_failed 1 1 _
    (ReachableIB.move _ ⟨1, 1, 1, 1⟩ (by decide)
      (ReachableIB.init _ fun r _ c _ => ⟨by norm_num, by norm_num⟩))

/-- Claim C6 fails as stated: calling the public `apply_move` with the
out-of-bounds rectangle `(0,0,0,0)` raises after `total_moves += 1`, leaving
a reachable board with `total_moves = 1` but no failed or successful move
recorded. -/
theorem total_counter_counterexample :
    Reachable 1 1 (Board.apply_move ⟨0, 0, 0, 0⟩ (Board.init 1 1 fun _ _ => 1)).2 ∧
    (Board.apply_move ⟨0, 0, 0, 0⟩ (Board.init 1 1 fun _ _ => 1)).2.total_moves ≠
      (Board.apply_move ⟨0, 0, 0, 0⟩ (Board.init 1 1 fun _ _ => 1)).2.successful_moves +
      (Board.apply_move ⟨0, 0, 0, 0⟩ (Board.init 1 1 fun _ _ => 1)).2.failed_moves := by
  constructor
  · exact Reachable.move _ ⟨0, 0, 0, 0⟩
      (Reachable.init _ fun r _ c _ => ⟨by norm_num, by norm_num⟩)
  · decide

/-- Claim C7: the rectangle queries raise exactly on rectangles that are
out of bounds or inverted in the 1-based sense, and never on a well-formed
rectangle. -/
theorem rect_query_error_iff (b : Board) (rc : Rect) :
    ((Board.rect_sum b rc).isOk = false ↔
      ¬(1 ≤ rc.r1 ∧ rc.r1 ≤ rc.r2 ∧ rc.r2 ≤ (b.H : ℤ) ∧
        1 ≤ rc.c1 ∧ rc.c1 ≤ rc.c2 ∧ rc.c2 ≤ (b.W : ℤ))) ∧
    ((Board.rect_nonzero_count b rc).isOk = false ↔
      ¬(1 ≤ rc.r1 ∧ rc.r1 ≤ rc.r2 ∧ rc.r2 ≤ (b.H : ℤ) ∧
        1 ≤ rc.c1 ∧ rc.c1 ≤ rc.c2 ∧ rc.c2 ≤ (b.W : ℤ))) := by
  have hiff : rectOk b.H b.W rc = true ↔
      (1 ≤ rc.r1 ∧ rc.r1 ≤ rc.r2 ∧ rc.r2 ≤ (b.H : ℤ) ∧
       1 ≤ rc.c1 ∧ rc.c1 ≤ rc.c2 ∧ rc.c2 ≤ (b.W : ℤ)) := by
    unfold rectOk
    rw [decide_eq_true_eq]
    omega
  constructor
  · unfold Board.rect_sum
    by_cases hok : rectOk b.H b.W rc = true
    · simp [hok, Except.isOk, Except.toBool, hiff.mp hok]
    · simp only [if_neg hok, Except.isOk, Except.toBool]
      simp [← hiff, hok]
  · unfold Board.rect_nonzero_count
    by_cases hok : rectOk b.H b.W rc = true
    · simp [hok, Except.isOk, Except.toBool, hiff.mp hok]
    · simp only [if_neg hok, Except.isOk, Except.toBool]
      simp [← hiff, hok]

lemma bruteNonzero_nonneg (g : Nat → Nat → ℤ) (r1 c1 r2 c2 : Nat) :
    0 ≤ bruteNonzero g r1 c1 r2 c2 := by
  refine Finset.sum_nonneg fun i _ => Finset.sum_nonneg fun j _ => ?_
  unfold ones
  split <;> norm_num

/-- Claim C9: reachable boards keep every in-bounds cell in `[0, 9]`; across
any `apply_move` the score and all three counters are non-decreasing and a
zero cell stays zero; queries change none of these fields. -/
theorem board_monotonic_invariants {H W : Nat} (b : Board)
    (hb : Reachable H W b) :
    (∀ r, r < H → ∀ c, c < W → 0 ≤ b.grid r c ∧ b.grid r c ≤ 9) ∧
    (∀ rc : Rect,
      b.score ≤ (Board.apply_move rc b).2.score ∧
      b.total_moves ≤ (Board.apply_move rc b).2.total_moves ∧
      b.failed_moves ≤ (Board.apply_move rc b).2.failed_moves ∧
      b.successful_moves ≤ (Board.apply_move rc b).2.successful_moves ∧
      (∀ r c : Nat, b.grid r c = 0 → (Board.apply_move rc b).2.grid r c = 0)) ∧
    ((ensurePS b).score = b.score ∧ (ensurePS b).total_moves = b.total_moves ∧
      (ensurePS b).failed_moves = b.failed_moves ∧
      (ensurePS b).successful_moves = b.successful_moves ∧
      (ensurePS b).grid = b.grid) := by
  obtain ⟨hc, hH, hW, hcells⟩ := reachable_inv hb
  refine ⟨hcells, ?_, ensurePS_score b, ensurePS_total b, ensurePS_failed b,
    ensurePS_succ b, ensurePS_grid b⟩
  intro rc
  by_cases hok : rectOk b.H b.W rc = true
  · by_cases hS : bruteRectSum b.grid (rc.r1 - 1).toNat (rc.c1 - 1).toNat
        (rc.r2 - 1).toNat (rc.c2 - 1).toNat = 10
    · rw [apply_move_success b rc hc hok hS]
      refine ⟨?_, by dsimp only; omega, le_refl _, by dsimp only; omega, ?_⟩
      · dsimp only
        have := bruteNonzero_nonneg b.grid (rc.r1 - 1).toNat (rc.c1 - 1).toNat
          (rc.r2 - 1).toNat (rc.c2 - 1).toNat
        omega
      · intro r c h0
        dsimp only [zeroRect]
        split
        · rfl
        · exact h0
    · rw [apply_move_fail b rc hc hok hS]
      exact ⟨le_refl _, by dsimp only; omega, by dsimp only; omega, le_refl _,
        fun r c h0 => h0⟩
  · rw [apply_move_invalid b rc (by simpa using hok)]
    exact ⟨le_refl _, by dsimp only; omega, le_refl _, le_refl _,
      fun r c h0 => h0⟩

theorem board_monotonic_invariants_witness :
    0 ≤ (Board.init 1 1 fun _ _ => 5).grid 0 0 ∧
    (Board.init 1 1 fun _ _ => 5).grid 0 0 ≤ 9 :=
  (@board_monotonic_invariants 1 1 _
    (Reachable.init _ fun r _ c _ => ⟨by norm_num, by norm_num⟩)).1
    0 (by norm_num) 0 (by norm_num)

/-- Core numerical fact shared by several results: on a grid with in-bounds
cells in `[0, 9]`, an in-bounds rectangle summing to 10 has at least two
nonzero cells. -/
lemma two_le_nonzero_of_sum_ten (g : Nat → Nat → ℤ) (H W r1 c1 r2 c2 : Nat)
    (hcells : ∀ r, r < H → ∀ c, c < W → 0 ≤ g r c ∧ g r c ≤ 9)
    (h1 : r1 ≤ r2) (h2 : r2 < H) (h3 : c1 ≤ c2) (h4 : c2 < W)
    (hS : bruteRectSum g r1 c1 r2 c2 = 10) :
    2 ≤ bruteNonzero g r1 c1 r2 c2 := by
  classical
  set S : Finset (Nat × Nat) := Finset.Icc r1 r2 ×ˢ Finset.Icc c1 c2 with hSdef
  have hsum : ∑ p ∈ S, g p.1 p.2 = bruteRectSum g r1 c1 r2 c2 :=
    Finset.sum_product' _ _ _
  have hcnt : bruteNonzero g r1 c1 r2 c2 =
      ((S.filter fun p => g p.1 p.2 ≠ 0).card : ℤ) := by
    have e : ∑ p ∈ S, ones g p.1 p.2 = bruteNonzero g r1 c1 r2 c2 :=
      Finset.sum_product' _ _ _
    rw [← e]
    simp only [ones]
    exact Finset.sum_boole _ _
  have hfil : ∑ p ∈ S.filter (fun p => g p.1 p.2 ≠ 0), g p.1 p.2
      = ∑ p ∈ S, g p.1 p.2 := Finset.sum_filter_ne_zero S
  have hle : ∑ p ∈ S.filter (fun p => g p.1 p.2 ≠ 0), g p.1 p.2 ≤
      ((S.filter fun p => g p.1 p.2 ≠ 0).card : ℤ) * 9 := by
    have := Finset.sum_le_card_nsmul (S.filter fun p => g p.1 p.2 ≠ 0)
      (fun p => g p.1 p.2) 9 ?_
    · simpa [nsmul_eq_mul] using this
    · intro p hp
      have hpS : p ∈ S := (Finset.mem_filter.mp hp).1
      rw [hSdef, Finset.mem_product, Finset.mem_Icc, Finset.mem_Icc] at hpS
      exact (hcells p.1 (by omega) p.2 (by omega)).2
  rw [hcnt]
  have h10 : (10 : ℤ) ≤ ((S.filter fun p => g p.1 p.2 ≠ 0).card : ℤ) * 9 := by
    rw [← hS, ← hsum, ← hfil]
    exact hle
  have : 1 < (S.filter fun p => g p.1 p.2 ≠ 0).card := by
    by_contra hcard
    push_neg at hcard
    have : ((S.filter fun p => g p.1 p.2 ≠ 0).card : ℤ) ≤ 1 := by
      exact_mod_cast hcard
    nlinarith
  omega

/-- Claim C10: on any grid whose in-bounds cells lie in `[0, 9]`, an
in-bounds rectangle summing to exactly 10 contains at least two nonzero
cells — no single cell reaches 10 and zeros contribute nothing, so the
`sum == 10` test alone already excludes rectangles of cleared cells. -/
theorem sum_ten_needs_two_nonzero (g : Nat → Nat → ℤ) (H W r1 c1 r2 c2 : Nat)
    (hcells : ∀ r, r < H → ∀ c, c < W → 0 ≤ g r c ∧ g r c ≤ 9)
    (h1 : r1 ≤ r2) (h2 : r2 < H) (h3 : c1 ≤ c2) (h4 : c2 < W)
    (hS : bruteRectSum g r1 c1 r2 c2 = 10) :
    2 ≤ bruteNonzero g r1 c1 r2 c2 :=
  two_le_nonzero_of_sum_ten g H W r1 c1 r2 c2 hcells h1 h2 h3 h4 hS

theorem sum_ten_needs_two_nonzero_witness :
    2 ≤ bruteNonzero (fun _ _ => 5) 0 0 0 1 := by
  refine sum_ten_needs_two_nonzero (fun _ _ => (5 : ℤ)) 1 2 0 0 0 1
    (fun r _ c _ => ⟨by norm_num, by norm_num⟩)
    (by norm_num) (by norm_num) (by norm_num) (by norm_num) ?_
  decide

/-- Strict ordering of 0-based iteration tuples `(r1, r2, c1, c2)` in the
nesting order of the enumeration loops: `r1`, then `r2`, then `c1`, then
`c2`. -/
def iterLt (p q : Nat × Nat × Nat × Nat) : Prop :=
  p.1 < q.1 ∨ (p.1 = q.1 ∧ (p.2.1 < q.2.1 ∨ (p.2.1 = q.2.1 ∧
    (p.2.2.1 < q.2.2.1 ∨ (p.2.2.1 = q.2.2.1 ∧ p.2.2.2 < q.2.2.2)))))

/-- Strict lexicographic ordering of 1-based result rectangles
`(row1, col1, row2, col2)` in the priority order row1, row2, col1, col2
named by the spec. -/
def moveKeyLt (p q : Nat × Nat × Nat × Nat) : Prop :=
  p.1 < q.1 ∨ (p.1 = q.1 ∧ (p.2.2.1 < q.2.2.1 ∨ (p.2.2.1 = q.2.2.1 ∧
    (p.2.1 < q.2.1 ∨ (p.2.1 = q.2.1 ∧ p.2.2.2 < q.2.2.2)))))

/-- Modelled from the spec: "all rectangles in the grid whose sum is 10 and
nonzero_count > 0, in a fixed deterministic order (ascending row1, then
row2, then col1, then col2)", as 1-based `(row1, col1, row2, col2)` tuples
paired with their brute-force nonzero count. -/
def specValidMoves (H W : Nat) (g : Nat → Nat → ℤ) :
    List ((Nat × Nat × Nat × Nat) × ℤ) :=
  (allRects H W).filterMap fun q =>
    if bruteRectSum g q.1 q.2.2.1 q.2.1 q.2.2.2 = 10 ∧
        0 < bruteNonzero g q.1 q.2.2.1 q.2.1 q.2.2.2 then
      some ((q.1 + 1, q.2.2.1 + 1, q.2.1 + 1, q.2.2.2 + 1),
            bruteNonzero g q.1 q.2.2.1 q.2.1 q.2.2.2)
    else none

lemma mem_allRects {H W r1 r2 c1 c2 : Nat} :
    (r1, r2, c1, c2) ∈ allRects H W ↔
      r1 ≤ r2 ∧ r2 < H ∧ c1 ≤ c2 ∧ c2 < W := by
  simp only [allRects, List.mem_flatMap, List.mem_map, List.mem_range,
    List.mem_range'_1]
  constructor
  · rintro ⟨a, ha, b, hb, c, hc, d, hd, heq⟩
    obtain ⟨e1, e2, e3, e4⟩ : a = r1 ∧ b = r2 ∧ c = c1 ∧ d = c2 := by
      simpa [Prod.ext_iff] using heq
    subst e1; subst e2; subst e3; subst e4
    omega
  · rintro ⟨h1, h2, h3, h4⟩
    exact ⟨r1, by omega, r2, by omega, c1, by omega, c2, by omega, rfl⟩

lemma pairwise_flatMap {α β : Type} {R : β → β → Prop} :
    ∀ (l : List α) (f : α → List β),
      (∀ a ∈ l, List.Pairwise R (f a)) →
      List.Pairwise (fun a a' => ∀ x ∈ f a, ∀ y ∈ f a', R x y) l →
      List.Pairwise R (l.flatMap f)
  | [], _, _, _ => by simp
  | a :: l, f, h1, h2 => by
    rw [List.flatMap_cons, List.pairwise_append]
    obtain ⟨hcross, htail⟩ := List.pairwise_cons.mp h2
    refine ⟨h1 a (List.mem_cons_self a l),
      pairwise_flatMap l f (fun x hx => h1 x (List.mem_cons_of_mem a hx))
        htail, ?_⟩
    intro x hx y hy
    obtain ⟨a', ha', hy'⟩ := List.mem_flatMap.mp hy
    exact hcross a' ha' x hx y hy'

lemma pairwise_filterMap {α β : Type} {R : α → α → Prop} {S : β → β → Prop}
    {f : α → Option β}
    (h : ∀ a a', R a a' → ∀ x ∈ f a, ∀ y ∈ f a', S x y) :
    ∀ {l : List α}, List.Pairwise R l → List.Pairwise S (l.filterMap f)
  | [], _ => by simp
  | a :: l, hl => by
    obtain ⟨ha, htail⟩ := List.pairwise_cons.mp hl
    rw [List.filterMap_cons]
    cases hfa : f a with
    | none => exact pairwise_filterMap h htail
    | some x =>
      rw [List.pairwise_cons]
      refine ⟨?_, pairwise_filterMap h htail⟩
      intro y hy
      obtain ⟨a', ha', hfa'⟩ := List.mem_filterMap.mp hy
      exact h a a' (ha a' ha') x (by simp [hfa]) y (by simp [hfa'])

/-- Every tuple produced at column-loop level carries the row pair of the
enclosing loops. -/
lemma mem_colBlock {r1 r2 W : Nat} {x : Nat × Nat × Nat × Nat}
    (hx : x ∈ (List.range W).flatMap fun c1 =>
      (List.range' c1 (W - c1)).map fun c2 => (r1, r2, c1, c2)) :
    x.1 = r1 ∧ x.2.1 = r2 := by
  obtain ⟨c1, -, hx⟩ := List.mem_flatMap.mp hx
  obtain ⟨c2, -, rfl⟩ := List.mem_map.mp hx
  exact ⟨rfl, rfl⟩

lemma pairwise_colBlock (r1 r2 W : Nat) :
    List.Pairwise iterLt ((List.range W).flatMap fun c1 =>
      (List.range' c1 (W - c1)).map fun c2 => (r1, r2, c1, c2)) := by
  apply pairwise_flatMap
  · intro c1 _
    rw [List.pairwise_map]
    refine (List.pairwise_lt_range' c1 (W - c1)).imp ?_
    intro a b hab
    exact Or.inr ⟨rfl, Or.inr ⟨rfl, Or.inr ⟨rfl, hab⟩⟩⟩
  · refine (List.pairwise_lt_range W).imp ?_
    intro c1 c1' hlt x hx y hy
    obtain ⟨c2, -, rfl⟩ := List.mem_map.mp hx
    obtain ⟨c2', -, rfl⟩ := List.mem_map.mp hy
    exact Or.inr ⟨rfl, Or.inr ⟨rfl, Or.inl hlt⟩⟩

/-- The enumeration of `allRects` is strictly increasing in the iteration
order. -/
lemma pairwise_allRects (H W : Nat) :
    List.Pairwise iterLt (allRects H W) := by
  unfold allRects
  apply pairwise_flatMap
  · intro r1 _
    apply pairwise_flatMap
    · intro r2 _
      exact pairwise_colBlock r1 r2 W
    · refine (List.pairwise_lt_range' r1 (H - r1)).imp ?_
      intro r2 r2' hlt x hx y hy
      obtain ⟨hx1, hx2⟩ := mem_colBlock hx
      obtain ⟨hy1, hy2⟩ := mem_colBlock hy
      exact Or.inr ⟨hx1.trans hy1.symm, Or.inl (by omega)⟩
  · refine (List.pairwise_lt_range H).imp ?_
    intro r1 r1' hlt x hx y hy
    obtain ⟨r2, -, hx⟩ := List.mem_flatMap.mp hx
    obtain ⟨r2', -, hy⟩ := List.mem_flatMap.mp hy
    obtain ⟨hx1, -⟩ := mem_colBlock hx
    obtain ⟨hy1, -⟩ := mem_colBlock hy
    exact Or.inl (by omega)

/-- `find?` on a strictly ordered list returns an element that precedes (in
the order) every other element satisfying the predicate. -/
lemma find?_min {α : Type} {R : α → α → Prop} {p : α → Bool} :
    ∀ {l : List α}, List.Pairwise R l → ∀ {a : α}, l.find? p = some a →
      ∀ b ∈ l, p b = true → a = b ∨ R a b
  | [], _, _, ha => by simp at ha
  | x :: l, hl, a, ha => by
    obtain ⟨hx, htail⟩ := List.pairwise_cons.mp hl
    intro b hb hpb
    rw [List.find?_cons] at ha
    cases hpx : p x with
    | true =>
      rw [hpx] at ha
      obtain rfl : x = a := by simpa using ha
      rcases List.mem_cons.mp hb with rfl | hbl
      · exact Or.inl rfl
      · exact Or.inr (hx b hbl)
    | false =>
      rw [hpx] at ha
      rcases List.mem_cons.mp hb with rfl | hbl
      · rw [hpb] at hpx; cases hpx
      · exact find?_min htail ha b hbl hpb

/-- Claim C3: on a reachable board, `find_valid_moves` returns exactly the
rectangles whose sum is 10 and whose nonzero count is positive, each paired
with that count, in ascending lexicographic `(row1, row2, col1, col2)`
order. -/
theorem find_valid_moves_exact {H W : Nat} (b : Board)
    (hb : Reachable H W b) :
    (Board.find_valid_moves b).1 = specValidMoves H W b.grid ∧
    List.Pairwise (fun e e' =>
      moveKeyLt e.1 e'.1) (Board.find_valid_moves b).1 := by
  obtain ⟨hc, hH, hW, hcells⟩ := reachable_inv hb
  have hfst : (Board.find_valid_moves b).1 =
      (allRects H W).filterMap fun q =>
        if prefSum (psTable b.grid) q.1 q.2.2.1 q.2.1 q.2.2.2 = 10 then
          some ((q.1 + 1, q.2.2.1 + 1, q.2.1 + 1, q.2.2.2 + 1),
                prefSum (psTable (ones b.grid)) q.1 q.2.2.1 q.2.1 q.2.2.2)
        else none := by
    simp only [Board.find_valid_moves]
    rw [ensurePS_eq_of_cacheOK b hc]
    dsimp only
    rw [hH, hW]
  have key : ∀ q ∈ allRects H W,
      (if prefSum (psTable b.grid) q.1 q.2.2.1 q.2.1 q.2.2.2 = 10 then
        some ((q.1 + 1, q.2.2.1 + 1, q.2.1 + 1, q.2.2.2 + 1),
              prefSum (psTable (ones b.grid)) q.1 q.2.2.1 q.2.1 q.2.2.2)
      else none) =
      (if bruteRectSum b.grid q.1 q.2.2.1 q.2.1 q.2.2.2 = 10 ∧
          0 < bruteNonzero b.grid q.1 q.2.2.1 q.2.1 q.2.2.2 then
        some ((q.1 + 1, q.2.2.1 + 1, q.2.1 + 1, q.2.2.2 + 1),
              bruteNonzero b.grid q.1 q.2.2.1 q.2.1 q.2.2.2)
      else none) := by
    rintro ⟨a, d, e, f⟩ hq
    rw [mem_allRects] at hq
    obtain ⟨h1, h2, h3, h4⟩ := hq
    have hps : prefSum (psTable b.grid) a e d f = bruteRectSum b.grid a e d f :=
      prefSum_psTable b.grid (by omega) (by omega)
    have hpo : prefSum (psTable (ones b.grid)) a e d f =
        bruteNonzero b.grid a e d f :=
      prefSum_psTable (ones b.grid) (by omega) (by omega)
    dsimp only
    rw [hps, hpo]
    by_cases hS : bruteRectSum b.grid a e d f = 10
    · rw [if_pos hS, if_pos ⟨hS, by
        have := two_le_nonzero_of_sum_ten b.grid H W a e d f hcells h1 h2 h3 h4 hS
        omega⟩]
    · rw [if_neg hS, if_neg (by tauto)]
  refine ⟨by rw [hfst, specValidMoves]; exact List.filterMap_congr key, ?_⟩
  rw [hfst]
  refine pairwise_filterMap ?_ (pairwise_allRects H W)
  intro q q' hqq' x hx y hy
  simp only [Option.mem_def] at hx hy
  split at hx
  · split at hy
    · obtain rfl : _ = x := Option.some.inj hx
      obtain rfl : _ = y := Option.some.inj hy
      dsimp only [moveKeyLt]
      dsimp only [iterLt] at hqq'
      omega
    · cases hy
  · cases hx

theorem find_valid_moves_exact_witness :
    (Board.find_valid_moves (Board.init 1 2 fun _ _ => 5)).1 =
      specValidMoves 1 2 (Board.init 1 2 fun _ _ => 5).grid :=
  (@find_valid_moves_exact 1 2 _
    (Reachable.init _ fun r _ c _ => ⟨by norm_num, by norm_num⟩)).1

/-- Claim C4: on a reachable board, `first_valid_move` returns `none`
exactly when `has_any_move` is false, equivalently exactly when no in-bounds
rectangle sums to 10; and when it returns a rectangle, that rectangle sums
to 10 and is least in the `(row1, row2, col1, col2)` iteration order among
all in-bounds rectangles summing to 10, with no nonzero-count filtering. -/
theorem first_valid_move_least {H W : Nat} (b : Board)
    (hb : Reachable H W b) :
    ((Board.first_valid_move b).1 = none ↔ (Board.has_any_move b).1 = false) ∧
    ((Board.first_valid_move b).1 = none ↔
      ¬ ∃ r1 r2 c1 c2 : Nat, r1 ≤ r2 ∧ r2 < H ∧ c1 ≤ c2 ∧ c2 < W ∧
        bruteRectSum b.grid r1 c1 r2 c2 = 10) ∧
    (∀ t, (Board.first_valid_move b).1 = some t →
      ∃ r1 r2 c1 c2 : Nat, r1 ≤ r2 ∧ r2 < H ∧ c1 ≤ c2 ∧ c2 < W ∧
        t = (r1 + 1, c1 + 1, r2 + 1, c2 + 1) ∧
        bruteRectSum b.grid r1 c1 r2 c2 = 10 ∧
        ∀ r1' r2' c1' c2' : Nat, r1' ≤ r2' → r2' < H → c1' ≤ c2' → c2' < W →
          bruteRectSum b.grid r1' c1' r2' c2' = 10 →
          (r1, r2, c1, c2) = (r1', r2', c1', c2') ∨
            iterLt (r1, r2, c1, c2) (r1', r2', c1', c2')) := by
  obtain ⟨hc, hH, hW, hcells⟩ := reachable_inv hb
  have hfind : (Board.first_valid_move b).1 =
      ((allRects H W).find? fun q =>
        prefSum (psTable b.grid) q.1 q.2.2.1 q.2.1 q.2.2.2 == 10).map
        (fun q => (q.1 + 1, q.2.2.1 + 1, q.2.1 + 1, q.2.2.2 + 1)) := by
    simp only [Board.first_valid_move]
    rw [ensurePS_eq_of_cacheOK b hc]
    dsimp only
    rw [hH, hW]
  have hany : (Board.has_any_move b).1 =
      (allRects H W).any fun q =>
        prefSum (psTable b.grid) q.1 q.2.2.1 q.2.1 q.2.2.2 == 10 := by
    simp only [Board.has_any_move]
    rw [ensurePS_eq_of_cacheOK b hc]
    dsimp only
    rw [hH, hW]
  have hpred : ∀ q ∈ allRects H W,
      ((prefSum (psTable b.grid) q.1 q.2.2.1 q.2.1 q.2.2.2 == 10) = true ↔
        bruteRectSum b.grid q.1 q.2.2.1 q.2.1 q.2.2.2 = 10) := by
    rintro ⟨a, d, e, f⟩ hq
    rw [mem_allRects] at hq
    dsimp only
    rw [prefSum_psTable b.grid (by omega) (by omega), beq_iff_eq]
  refine ⟨?_, ?_, ?_⟩
  · rw [hfind, hany, Option.map_eq_none', List.find?_eq_none,
      ← Bool.not_eq_true, List.any_eq_true]
    push_neg
    rfl
  · rw [hfind, Option.map_eq_none', List.find?_eq_none]
    constructor
    · rintro hnone ⟨r1, r2, c1, c2, h1, h2, h3, h4, hS⟩
      have hmem : (r1, r2, c1, c2) ∈ allRects H W :=
        mem_allRects.mpr ⟨h1, h2, h3, h4⟩
      exact hnone _ hmem ((hpred _ hmem).mpr hS)
    · intro hnot q hq hp
      obtain ⟨a, d, e, f⟩ := q
      have hb' := mem_allRects.mp hq
      exact hnot ⟨a, d, e, f, hb'.1, hb'.2.1, hb'.2.2.1, hb'.2.2.2,
        (hpred _ hq).mp hp⟩
  · intro t ht
    rw [hfind, Option.map_eq_some'] at ht
    obtain ⟨q, hq, rfl⟩ := ht
    have hmem := List.mem_of_find?_eq_some hq
    have hp := List.find?_some hq
    obtain ⟨a, d, e, f⟩ := q
    obtain ⟨h1, h2, h3, h4⟩ := mem_allRects.mp hmem
    refine ⟨a, d, e, f, h1, h2, h3, h4, rfl, (hpred _ hmem).mp hp, ?_⟩
    intro r1' r2' c1' c2' h1' h2' h3' h4' hS'
    have hmem' : (r1', r2', c1', c2') ∈ allRects H W :=
      mem_allRects.mpr ⟨h1', h2', h3', h4'⟩
    exact find?_min (pairwise_allRects H W) hq _ hmem'
      ((hpred _ hmem').mpr hS')

theorem first_valid_move_least_witness :
    (Board.first_valid_move (Board.init 1 1 fun _ _ => 5)).1 = none ↔
      (Board.has_any_move (Board.init 1 1 fun _ _ => 5)).1 = false :=
  (@first_valid_move_least 1 1 _
    (Reachable.init _ fun r _ c _ => ⟨by norm_num, by norm_num⟩)).1

/-- Claim C5: on an unmutated board, running `find_valid_moves` again on the
state left by a first run returns the same sequence, and the sequence is
empty exactly when `has_any_move` is false. -/
theorem find_valid_moves_idempotent (b : Board) :
    (Board.find_valid_moves (Board.find_valid_moves b).2).1 =
      (Board.find_valid_moves b).1 ∧
    ((Board.find_valid_moves b).1 = [] ↔ (Board.has_any_move b).1 = false) := by
  constructor
  · simp only [Board.find_valid_moves]
    rw [ensurePS_idem]
  · simp only [Board.find_valid_moves, Board.has_any_move]
    rw [List.filterMap_eq_nil_iff, ← Bool.not_eq_true, List.any_eq_true]
    constructor
    · rintro h ⟨q, hq, hpq⟩
      have hnone := h q hq
      rw [beq_iff_eq] at hpq
      rw [if_pos hpq] at hnone
      cases hnone
    · intro h q hq
      by_cases hS : prefSum (ensurePS b).ps_sum q.1 q.2.2.1 q.2.1 q.2.2.2 = 10
      · exact absurd ⟨q, hq, beq_iff_eq.mpr hS⟩ h
      · rw [if_neg hS]

theorem find_valid_moves_idempotent_witness :
    (Board.find_valid_moves
        (Board.find_valid_moves (Board.init 1 1 fun _ _ => 5)).2).1 =
      (Board.find_valid_moves (Board.init 1 1 fun _ _ => 5)).1 :=
  (find_valid_moves_idempotent (Board.init 1 1 fun _ _ => 5)).1

/-! Coordinator model (`game.py`).  Wall-clock instants (`time.time()`) are
embedded as rationals supplied to each step; the worker's result channel is
embedded as the optional result consumed by one `_poll_worker` call. -/

/-- Session states of `Game.state`. -/
inductive GState
  | start
  | playing
  | gameover
  deriving DecidableEq

/-- The two values of `Game.pop_state`. -/
inductive PopState
  | idle
  | popping
  deriving DecidableEq

/-- A worker result envelope `(version, rect | None, gameover_flag, ts)`. -/
structure WorkerResult where
  ver : ℤ
  rect : Option Rect
  gameover_flag : Bool
  ts : ℚ

/-- Timing constants of `game.py`, as rationals. -/
def BOT_INTERVAL : ℚ := 1 / 2

def NO_MOVE_BACKOFF : ℚ := 1 / 2

def FAIL_APPLY_BACKOFF : ℚ := 1 / 5

def BORDER_DUR : ℚ := 1 / 4

/-- The fields of `Game` read or written by `_poll_worker` and
`_apply_pending_if_ready`. -/
structure Game where
  state : GState
  board : Option Board
  selecting : Bool
  pop_state : PopState
  pop_t : ℚ
  removed_cells : List (Nat × Nat × ℤ)
  bot_hilite_rect : Option (ℤ × ℤ × ℤ × ℤ)
  bot_hilite_t : ℚ
  version : ℤ
  job_inflight : Bool
  pending_rect : Option Rect
  pending_ver : ℤ
  next_apply_time : ℚ
  no_move_backoff_until : ℚ

/-- `_sum_rect_grid`: brute-force sum of the grid over a 1-based rectangle
(in-bounds use only; the coordinator only passes rectangles produced by a
bot against a same-sized snapshot). -/
def sumRectGrid (g : Nat → Nat → ℤ) (rc : Rect) : ℤ :=
  bruteRectSum g (rc.r1 - 1).toNat (rc.c1 - 1).toNat
    (rc.r2 - 1).toNat (rc.c2 - 1).toNat

/-- `_count_nonzero_rect_grid`: brute-force nonzero count over a 1-based
rectangle. -/
def countNonzeroRectGrid (g : Nat → Nat → ℤ) (rc : Rect) : ℤ :=
  bruteNonzero g (rc.r1 - 1).toNat (rc.c1 - 1).toNat
    (rc.r2 - 1).toNat (rc.c2 - 1).toNat

/-- The animation capture `[(r, c, grid[r][c]) for r ..., for c ...]` taken
just before a direct apply. -/
def captureCells (g : Nat → Nat → ℤ) (rc : Rect) : List (Nat × Nat × ℤ) :=
  (List.range' (rc.r1 - 1).toNat
      ((rc.r2 - 1).toNat + 1 - (rc.r1 - 1).toNat)).flatMap fun r =>
    (List.range' (rc.c1 - 1).toNat
        ((rc.c2 - 1).toNat + 1 - (rc.c1 - 1).toNat)).map fun c => (r, c, g r c)

/-- `_apply_move_direct`: validate and apply against the live grid without
the board's cached tables; note it does not raise the board's dirty flag. -/
def applyMoveDirect (board : Board) (rc : Rect) : Bool × Board :=
  let b1 := { board with total_moves := board.total_moves + 1 }
  if sumRectGrid b1.grid rc ≠ 10 then
    (false, { b1 with failed_moves := b1.failed_moves + 1 })
  else
    (true, { b1 with
      score := b1.score + countNonzeroRectGrid b1.grid rc,
      successful_moves := b1.successful_moves + 1,
      grid := zeroRect b1.grid (rc.r1 - 1).toNat (rc.c1 - 1).toNat
                (rc.r2 - 1).toNat (rc.c2 - 1).toNat })

/-- `Game._poll_worker` with the drained result and the current instant as
inputs: ignore when no job is in flight or no result is ready; othewise
clear the in-flight flag, discard a result with a stale version stamp,
honour a termination flag while playing, back off on an absent rectangle,
and otherwise stage the rectangle as the pending move. -/
def pollWorker (res : Option WorkerResult) (now : ℚ) (g : Game) : Game :=
  if !g.job_inflight then g
  else
    match res with
    | none => g
    | some r =>
      let g1 := { g with job_inflight := false }
      if r.ver ≠ g1.version then { g1 with no_move_backoff_until := now }
      else if r.gameover_flag = true ∧ g1.state = GState.playing then
        { g1 with pending_rect := none, pending_ver := -1,
                  selecting := false, pop_state := PopState.idle,
                  state := GState.gameover }
      else
        match r.rect with
        | none => { g1 with no_move_backoff_until := now + NO_MOVE_BACKOFF }
        | some rect =>
          { g1 with pending_rect := some rect, pending_ver := r.ver }

/-- `Game._apply_pending_if_ready`: gate on session state, animation state,
pending presence, the inter-move interval, and the version stamp; then
re-validate against the live grid and apply directly, bumping the version
only on a successful apply. -/
def applyPendingIfReady (now : ℚ) (g : Game) : Game :=
  match g.board, g.pending_rect with
  | some board, some rect =>
    if g.state ≠ GState.playing ∨ g.pop_state ≠ PopState.idle then g
    else if now < g.next_apply_time then g
    else if g.pending_ver ≠ g.version then { g with pending_rect := none }
    else if sumRectGrid board.grid rect ≠ 10 then
      { g with pending_rect := none,
               no_move_backoff_until := now + FAIL_APPLY_BACKOFF }
    else
      match applyMoveDirect board rect with
      | (false, board') =>
        { g with board := some board', removed_cells := [],
                 bot_hilite_rect := none, bot_hilite_t := 0,
                 pending_rect := none,
                 no_move_backoff_until := now + FAIL_APPLY_BACKOFF }
      | (true, board') =>
        { g with board := some board',
                 removed_cells := captureCells board.grid rect,
                 version := g.version + 1,
                 bot_hilite_rect := some (rect.r1 - 1, rect.c1 - 1,
                   rect.r2 - 1, rect.c2 - 1),
                 bot_hilite_t := BORDER_DUR,
                 pop_state := PopState.popping, pop_t := 0,
                 next_apply_time := now + BOT_INTERVAL,
                 pending_rect := none }
  | _, _ => g

/-- The gate under which `_apply_pending_if_ready` actually applies a move:
playing, idle animation, a pending rectangle whose stamp matches the
current version, the inter-move interval elapsed, and the live-grid
re-validation passing. -/
def canApply (now : ℚ) (gm : Game) : Prop :=
  ∃ board rect, gm.board = some board ∧ gm.pending_rect = some rect ∧
    gm.state = GState.playing ∧ gm.pop_state = PopState.idle ∧
    ¬ now < gm.next_apply_time ∧ gm.pending_ver = gm.version ∧
    sumRectGrid board.grid rect = 10

lemma applyMoveDirect_fst (board : Board) (rc : Rect) :
    (applyMoveDirect board rc).1 = true ↔ sumRectGrid board.grid rc = 10 := by
  unfold applyMoveDirect
  dsimp only
  split
  · rename_i hne
    simp only [Bool.false_eq_true, false_iff]
    exact hne
  · rename_i hne
    simp only [true_iff]
    exact not_not.mp hne

/-- Claim C8: in the coordinator's step relation, polling never touches the
board or the version; a result with a stale version stamp is discarded on
arrival, changing nothing but the in-flight flag and the recheck time; a
pending move whose stamp no longer matches never mutates the board and is
dropped at the application gate; and the version counter is incremented by
exactly one when a pending move is actually applied and is unchanged
otherwise. -/
theorem stale_results_never_apply (gm : Game) (res : Option WorkerResult)
    (now : ℚ) :
    ((pollWorker res now gm).board = gm.board ∧
     (pollWorker res now gm).version = gm.version) ∧
    (∀ r : WorkerResult, res = some r → gm.job_inflight = true →
      r.ver ≠ gm.version →
      pollWorker res now gm =
        { gm with job_inflight := false, no_move_backoff_until := now }) ∧
    (gm.pending_ver ≠ gm.version →
      (applyPendingIfReady now gm).board = gm.board ∧
      (applyPendingIfReady now gm).version = gm.version ∧
      (gm.board ≠ none → gm.pending_rect ≠ none →
        gm.state = GState.playing → gm.pop_state = PopState.idle →
        ¬ now < gm.next_apply_time →
        (applyPendingIfReady now gm).pending_rect = none)) ∧
    (canApply now gm →
      (applyPendingIfReady now gm).version = gm.version + 1) ∧
    (¬ canApply now gm →
      (applyPendingIfReady now gm).version = gm.version) := by
  refine ⟨?_, ?_, ?_, ?_, ?_⟩
  · unfold pollWorker
    rcases res with _ | r <;> cases hj : gm.job_inflight <;>
      simp only [hj, Bool.not_false, Bool.not_true, if_true, if_false,
        Bool.false_eq_true, Bool.true_eq_false] <;>
      first
        | exact ⟨rfl, rfl⟩
        | exact ⟨trivial, trivial⟩
        | (constructor <;> (repeat' split) <;> rfl)
  · intro r hres hin hver
    subst hres
    unfold pollWorker
    simp only [hin, Bool.not_true, Bool.false_eq_true, if_false]
    rw [if_pos hver]
  · intro hvm
    rcases hgb : gm.board with _ | board <;>
      rcases hgp : gm.pending_rect with _ | rect
    · simp only [applyPendingIfReady, hgb, hgp]
      exact ⟨trivial, trivial, fun hbne _ _ _ _ => absurd rfl hbne⟩
    · simp only [applyPendingIfReady, hgb, hgp]
      exact ⟨trivial, trivial, fun hbne _ _ _ _ => absurd rfl hbne⟩
    · simp only [applyPendingIfReady, hgb, hgp]
      exact ⟨trivial, trivial, fun _ hpne _ _ _ => absurd rfl hpne⟩
    · simp only [applyPendingIfReady, hgb, hgp]
      by_cases h1 : gm.state ≠ GState.playing ∨ gm.pop_state ≠ PopState.idle
      · rw [if_pos h1]
        refine ⟨hgb, rfl, fun _ _ hst hpo _ => ?_⟩
        rcases h1 with h1 | h1
        · exact absurd hst h1
        · exact absurd hpo h1
      · rw [if_neg h1]
        by_cases h2 : now < gm.next_apply_time
        · rw [if_pos h2]
          exact ⟨hgb, rfl, fun _ _ _ _ htime => absurd h2 htime⟩
        · rw [if_neg h2, if_pos hvm]
          exact ⟨rfl, rfl, fun _ _ _ _ _ => rfl⟩
  · rintro ⟨board, rect, hgb, hgp, hst, hpo, htime, hver, hsum⟩
    simp only [applyPendingIfReady, hgb, hgp]
    rw [if_neg (by simp [hst, hpo])]
    rw [if_neg htime]
    rw [if_neg (not_not_intro hver)]
    rw [if_neg (not_not_intro hsum)]
    have hEq : applyMoveDirect board rect =
        (true, (applyMoveDirect board rect).2) := by
      rcases h : applyMoveDirect board rect with ⟨fl, b2⟩
      have hfl : fl = true := by
        have h1 := (applyMoveDirect_fst board rect).mpr hsum
        rw [h] at h1
        exact h1
      rw [hfl]
    rw [hEq]
  · intro hnca
    rcases hgb : gm.board with _ | board <;>
      rcases hgp : gm.pending_rect with _ | rect
    · simp only [applyPendingIfReady, hgb, hgp]
    · simp only [applyPendingIfReady, hgb, hgp]
    · simp only [applyPendingIfReady, hgb, hgp]
    · simp only [applyPendingIfReady, hgb, hgp]
      by_cases h1 : gm.state ≠ GState.playing ∨ gm.pop_state ≠ PopState.idle
      · rw [if_pos h1]
      · rw [if_neg h1]
        by_cases h2 : now < gm.next_apply_time
        · rw [if_pos h2]
        · rw [if_neg h2]
          by_cases h3 : gm.pending_ver ≠ gm.version
          · rw [if_pos h3]
          · rw [if_neg h3]
            by_cases h4 : sumRectGrid board.grid rect ≠ 10
            · rw [if_pos h4]
            · exfalso
              rw [not_or] at h1
              exact hnca ⟨board, rect, hgb, hgp, not_not.mp h1.1,
                not_not.mp h1.2, h2, not_not.mp h3, not_not.mp h4⟩

theorem rect_query_error_iff_witness :
    (Board.rect_sum (Board.init 1 1 fun _ _ => 5) ⟨0, 0, 0, 0⟩).isOk = false :=
  (rect_query_error_iff (Board.init 1 1 fun _ _ => 5) ⟨0, 0, 0, 0⟩).1.mpr
    (by decide)

/-- A concrete coordinator state with one job in flight at version 0. -/
def sampleGame : Game :=
  { state := GState.playing, board := some (Board.init 1 1 fun _ _ => 1),
    selecting := false, pop_state := PopState.idle, pop_t := 0,
    removed_cells := [], bot_hilite_rect := none, bot_hilite_t := 0,
    version := 0, job_inflight := true, pending_rect := none,
    pending_ver := -1, next_apply_time := 0, no_move_backoff_until := 0 }

/-- A worker result stamped with version 1, stale relative to `sampleGame`. -/
def sampleResult : WorkerResult :=
  { ver := 1, rect := none, gameover_flag := false, ts := 0 }

theorem stale_results_never_apply_witness :
    pollWorker (some sampleResult) 0 sampleGame =
      { sampleGame with job_inflight := false, no_move_backoff_until := 0 } :=
  (stale_results_never_apply sampleGame (some sampleResult) 0).2.1
    sampleResult rfl rfl (by decide)

end AppleBot
